import Mathlib

/-!
Verification of the ParadeDB charabia tokenizer adapter
(`src/tokenizers/src/charabia.rs`).

The adapter bridges the charabia segmentation engine and tantivy's pull-based
`TokenStream` contract.  We shallowly embed the adapter: the external
segmentation engine is a parameter `tokenize : String → List Segment`
producing the lazy segment sequence, the external NFC normalization pass of
the `unicode_normalization` crate is a parameter `nfc : String → String`, and
the stream state (`tokens` iterator, current `token` buffer, `position`
counter) is an explicit structure with `advance` written as the source's
`while let` loop.
-/

namespace ParadeDB

/-- tantivy's `Token` record as used by the adapter and described by the spec:
owned text, byte offsets into the original input, ordinal position and
position length. -/
structure Token where
  text : String
  offset_from : Nat
  offset_to : Nat
  position : Nat
  position_length : Nat
deriving Repr, DecidableEq

/-- Modelled from the spec: tantivy's `Token::default()` lives in the external
tantivy crate, not in this repository.  The spec's data model records only
that `position_length` defaults to `1`; the remaining fields are taken as the
empty/zero values.  Theorems below use `Token.default` opaquely and never rely
on the unspecified field values. -/
def Token.default : Token :=
  { text := "", offset_from := 0, offset_to := 0, position := 0, position_length := 1 }

/-- charabia's classification of a segment (`TokenKind`): only `word`
segments are surfaced by the adapter. -/
inductive SegmentKind where
  | word
  | stopWord
  | separator
  | unknown
deriving Repr, DecidableEq

/-- A classified segment produced by the charabia segmentation engine:
a lemma (engine-normalized text) plus byte offsets into the original input
and a classification tag. -/
structure Segment where
  lemma_ : String
  byte_start : Nat
  byte_end : Nat
  kind : SegmentKind
deriving Repr, DecidableEq

/-- charabia's `Token::is_word`: the segment is classified `word`. -/
def Segment.is_word (s : Segment) : Bool :=
  match s.kind with
  | .word => true
  | _ => false

/-- The adapter's stream state (`CharabiaTokenStream`): the remaining
segment sequence of the `NormalizedTokenIter`, the current token buffer, and
the position counter. -/
structure CharabiaTokenStream where
  tokens : List Segment
  token : Token
  position : Nat
deriving Repr, DecidableEq

/-- The body of the emitting branch of `advance` (charabia.rs lines 63-68):
overwrite the current token's text with the NFC normalization of the
segment's lemma, copy the byte offsets verbatim, and stamp the current
position.  Note that `position_length` is NOT assigned by the source. -/
def emit (nfc : String → String) (tok : Token) (pos : Nat) (seg : Segment) : Token :=
  { tok with
    text := nfc seg.lemma_
    offset_from := seg.byte_start
    offset_to := seg.byte_end
    position := pos }

/-- The `while let Some(token) = self.tokens.next()` loop of `advance`:
skip non-word segments; on the first word segment overwrite the buffer,
post-increment the counter and return `true`; return `false` when the
iterator is exhausted. -/
def advanceAux (nfc : String → String) (tok : Token) (pos : Nat) :
    List Segment → Bool × CharabiaTokenStream
  | [] => (false, ⟨[], tok, pos⟩)
  | seg :: rest =>
    if seg.is_word then
      (true, ⟨rest, emit nfc tok pos seg, pos + 1⟩)
    else
      advanceAux nfc tok pos rest

/-- `CharabiaTokenStream::advance`. -/
def CharabiaTokenStream.advance (nfc : String → String) (s : CharabiaTokenStream) :
    Bool × CharabiaTokenStream :=
  advanceAux nfc s.token s.position s.tokens

/-- `CharabiaTokenStream::token_mut`: a later pipeline stage rewriting the
current token buffer in place is modelled as applying a function to it. -/
def CharabiaTokenStream.token_mut (f : Token → Token) (s : CharabiaTokenStream) :
    CharabiaTokenStream :=
  { s with token := f s.token }

/-- `CharabiaTokenStream::new` (called by `CharabiaTokenizer::token_stream`):
run the shared engine over the text, reset the buffer to the default token
and the counter to 0. -/
def CharabiaTokenStream.new (tokenize : String → List Segment) (text : String) :
    CharabiaTokenStream :=
  { tokens := tokenize text, token := Token.default, position := 0 }

/-- The driver used by the repository's tests (`test_helper`): call `advance`
until it returns `false`, cloning the current token after each successful
call.  Fuel-indexed; `s.tokens.length` fuel always suffices since each
successful `advance` consumes at least one segment. -/
def collectFuel (nfc : String → String) : Nat → CharabiaTokenStream → List Token
  | 0, _ => []
  | fuel + 1, s =>
    match s.advance nfc with
    | (true, s') => s'.token :: collectFuel nfc fuel s'
    | (false, _) => []

/-- Driving a stream to exhaustion, collecting the emitted tokens. -/
def CharabiaTokenStream.collectTokens (nfc : String → String)
    (s : CharabiaTokenStream) : List Token :=
  collectFuel nfc s.tokens.length s

/-- The sequence of tokens the emitting branch produces from a list of word
segments, starting at position `pos`, with every emitted token carrying
position length `pl` (the buffer's `position_length`, which `advance` never
writes). -/
def emitAll (nfc : String → String) (pl : Nat) (pos : Nat) : List Segment → List Token
  | [] => []
  | seg :: rest =>
    ⟨nfc seg.lemma_, seg.byte_start, seg.byte_end, pos, pl⟩ :: emitAll nfc pl (pos + 1) rest

/-- Validity of a segment with respect to the original input, as assumed of
the segmentation source by the spec: a non-empty byte range lying inside the
input buffer. -/
def ValidSegment (text : String) (seg : Segment) : Prop :=
  seg.byte_start < seg.byte_end ∧ seg.byte_end ≤ text.utf8ByteSize

instance (text : String) (seg : Segment) : Decidable (ValidSegment text seg) := by
  unfold ValidSegment; infer_instance

/-- The state reached after `n` further calls to `advance`. -/
def advanceN (nfc : String → String) : Nat → CharabiaTokenStream → CharabiaTokenStream
  | 0, s => s
  | n + 1, s => advanceN nfc n (s.advance nfc).2

/-- The `while let` loop returns `false` only once it has consumed the whole
iterator: the final state keeps the buffer and counter and has no segments
left. -/
theorem advanceAux_false (nfc : String → String) (tok : Token) (pos : Nat) :
    ∀ segs s', advanceAux nfc tok pos segs = (false, s') → s' = ⟨[], tok, pos⟩ := by
  intro segs
  induction segs with
  | nil =>
    intro s' h
    simp [advanceAux] at h
    exact h.symm
  | cons seg rest ih =>
    intro s' h
    by_cases hw : seg.is_word = true
    · simp [advanceAux, hw] at h
    · simp [advanceAux, hw] at h
      exact ih s' h

/-- `advance` on a stream with an exhausted iterator returns `false` and
leaves the state untouched. -/
theorem advance_nil (nfc : String → String) (s : CharabiaTokenStream)
    (h : s.tokens = []) : s.advance nfc = (false, s) := by
  cases s with
  | mk tokens tok pos =>
    cases h
    simp [CharabiaTokenStream.advance, advanceAux]

/-- Driving the loop with enough fuel produces exactly one emitted token per
word segment: the collected sequence is `emitAll` over the word-filtered
segment list, starting at the current counter, every token carrying the
buffer's (never rewritten) `position_length`. -/
theorem collectFuel_eq (nfc : String → String) :
    ∀ segs fuel tok pos, segs.length ≤ fuel →
      collectFuel nfc fuel ⟨segs, tok, pos⟩ =
        emitAll nfc tok.position_length pos (segs.filter (·.is_word)) := by
  intro segs
  induction segs with
  | nil =>
    intro fuel tok pos _
    cases fuel with
    | zero => simp [collectFuel, emitAll]
    | succ f =>
      simp [collectFuel, CharabiaTokenStream.advance, advanceAux, emitAll]
  | cons seg rest ih =>
    intro fuel tok pos hfuel
    cases fuel with
    | zero => simp at hfuel
    | succ f =>
      by_cases hw : seg.is_word = true
      · have hrest : rest.length ≤ f := by
          simpa [List.length_cons, Nat.succ_le_succ_iff] using hfuel
        have hadv : CharabiaTokenStream.advance nfc ⟨seg :: rest, tok, pos⟩ =
            (true, ⟨rest, emit nfc tok pos seg, pos + 1⟩) := by
          simp [CharabiaTokenStream.advance, advanceAux, hw]
        have hpl : (emit nfc tok pos seg).position_length = tok.position_length := rfl
        simp only [collectFuel, hadv]
        rw [ih f (emit nfc tok pos seg) (pos + 1) hrest]
        simp [emitAll, hw, emit]
  -- non-word segments are skipped inside the same `advance` call
      · have hskip : CharabiaTokenStream.advance nfc ⟨seg :: rest, tok, pos⟩ =
            CharabiaTokenStream.advance nfc ⟨rest, tok, pos⟩ := by
          simp [CharabiaTokenStream.advance, advanceAux, hw]
        have hrest : rest.length ≤ f + 1 := by
          have := hfuel
          simp [List.length_cons] at this
          omega
        calc collectFuel nfc (f + 1) ⟨seg :: rest, tok, pos⟩
            = collectFuel nfc (f + 1) ⟨rest, tok, pos⟩ := by
              simp only [collectFuel, hskip]
          _ = emitAll nfc tok.position_length pos (rest.filter (·.is_word)) :=
              ih (f + 1) tok pos hrest
          _ = emitAll nfc tok.position_length pos ((seg :: rest).filter (·.is_word)) := by
              simp [List.filter_cons, hw]

/-- `collectTokens`, in closed form. -/
theorem collectTokens_eq (nfc : String → String) (s : CharabiaTokenStream) :
    s.collectTokens nfc =
      emitAll nfc s.token.position_length s.position (s.tokens.filter (·.is_word)) := by
  cases s with
  | mk tokens tok pos =>
    exact collectFuel_eq nfc tokens tokens.length tok pos (Nat.le_refl _)

theorem emitAll_length (nfc : String → String) (pl : Nat) :
    ∀ l pos, (emitAll nfc pl pos l).length = l.length := by
  intro l
  induction l with
  | nil => intro pos; simp [emitAll]
  | cons seg rest ih => intro pos; simp [emitAll, ih]

theorem emitAll_map_position (nfc : String → String) (pl : Nat) :
    ∀ l pos, (emitAll nfc pl pos l).map Token.position = List.range' pos l.length := by
  intro l
  induction l with
  | nil => intro pos; simp [emitAll]
  | cons seg rest ih => intro pos; simp [emitAll, List.range'_succ, ih]

/-- Every token produced by the emitting branch is built field-by-field from
its word segment: NFC-normalized lemma as text, byte offsets copied
verbatim, the carried position length. -/
theorem emitAll_forall₂ (nfc : String → String) (pl : Nat) :
    ∀ l pos, List.Forall₂
      (fun t seg => t.text = nfc seg.lemma_ ∧ t.offset_from = seg.byte_start ∧
        t.offset_to = seg.byte_end ∧ t.position_length = pl)
      (emitAll nfc pl pos l) l := by
  intro l
  induction l with
  | nil => intro pos; simp [emitAll]
  | cons seg rest ih =>
    intro pos
    exact List.Forall₂.cons ⟨rfl, rfl, rfl, rfl⟩ (ih (pos + 1))

theorem emitAll_mem (nfc : String → String) (pl : Nat) :
    ∀ l pos t, t ∈ emitAll nfc pl pos l →
      ∃ seg ∈ l, t.offset_from = seg.byte_start ∧ t.offset_to = seg.byte_end := by
  intro l
  induction l with
  | nil => intro pos t h; simp [emitAll] at h
  | cons seg rest ih =>
    intro pos t h
    simp only [emitAll, List.mem_cons] at h
    rcases h with h | h
    · exact ⟨seg, List.mem_cons_self _ _, by simp [h]⟩
    · obtain ⟨seg', hmem, hoff⟩ := ih (pos + 1) t h
      exact ⟨seg', List.mem_cons_of_mem _ hmem, hoff⟩

theorem emitAll_position_length (nfc : String → String) (pl : Nat) :
    ∀ l pos t, t ∈ emitAll nfc pl pos l → t.position_length = pl := by
  intro l
  induction l with
  | nil => intro pos t h; simp [emitAll] at h
  | cons seg rest ih =>
    intro pos t h
    simp only [emitAll, List.mem_cons] at h
    rcases h with h | h
    · simp [h]
    · exact ih (pos + 1) t h

/-- The `while let` loop never writes `position_length`: the buffer's value
survives every call, emitting or not. -/
theorem advanceAux_position_length (nfc : String → String) (tok : Token) (pos : Nat) :
    ∀ segs, (advanceAux nfc tok pos segs).2.token.position_length = tok.position_length := by
  intro segs
  induction segs with
  | nil => simp [advanceAux]
  | cons seg rest ih =>
    by_cases hw : seg.is_word = true
    · simp [advanceAux, hw, emit]
    · simpa [advanceAux, hw] using ih

/-- When `advance` reports exhaustion, the state it leaves behind keeps the
buffer and counter and has an empty iterator. -/
theorem advance_false (nfc : String → String) (s : CharabiaTokenStream)
    (h : (s.advance nfc).1 = false) :
    (s.advance nfc).2 = ⟨[], s.token, s.position⟩ := by
  have he : advanceAux nfc s.token s.position s.tokens = (false, (s.advance nfc).2) :=
    Prod.ext_iff.mpr ⟨h, rfl⟩
  exact advanceAux_false nfc s.token s.position s.tokens _ he

/-- Modelled from the spec: the stopword filter stage configured through
`SearchTokenizerFilters` and built by `SearchTokenizer::to_tantivy_tokenizer`
in `manager.rs`, which is not under src/ (only its tests are).  The filter
wraps the adapter's stream; on each pull it repeatedly draws from the
wrapped stream and drops any token whose (already NFC-normalized) text is an
exact member of the combined active stopword set; exhaustion of the wrapped
stream propagates.  `stopCollectFuel` drives the wrapped composition to
exhaustion, collecting the surviving tokens. -/
def stopCollectFuel (stopwords : List String) (nfc : String → String) :
    Nat → CharabiaTokenStream → List Token
  | 0, _ => []
  | fuel + 1, s =>
    match s.advance nfc with
    | (true, s') =>
      if stopwords.contains s'.token.text then stopCollectFuel stopwords nfc fuel s'
      else s'.token :: stopCollectFuel stopwords nfc fuel s'
    | (false, _) => []

/-- Driving the stopword-filtered composition to exhaustion. -/
def stopCollect (stopwords : List String) (nfc : String → String)
    (s : CharabiaTokenStream) : List Token :=
  stopCollectFuel stopwords nfc s.tokens.length s

/-- The stateful filter loop computes exactly a `List.filter` of the
underlying stream's output, fuel by fuel. -/
theorem stopCollectFuel_eq (stopwords : List String) (nfc : String → String) :
    ∀ fuel s, stopCollectFuel stopwords nfc fuel s =
      (collectFuel nfc fuel s).filter (fun t => !stopwords.contains t.text) := by
  intro fuel
  induction fuel with
  | zero => intro s; simp [stopCollectFuel, collectFuel]
  | succ f ih =>
    intro s
    rcases hadv : s.advance nfc with ⟨b, s'⟩
    cases b
    · simp [stopCollectFuel, collectFuel, hadv]
    · by_cases hmem : stopwords.contains s'.token.text = true
      · simp [stopCollectFuel, collectFuel, hadv, hmem, ih s', List.filter_cons]
      · simp [stopCollectFuel, collectFuel, hadv, hmem, ih s', List.filter_cons]

/-- A word segment used by concrete instantiations below. -/
def segAB : Segment := ⟨"ab", 0, 2, .word⟩

/-- A separator segment used by concrete instantiations below. -/
def segSp : Segment := ⟨" ", 2, 3, .separator⟩

/-- A second word segment used by concrete instantiations below. -/
def segCD : Segment := ⟨"cd", 3, 5, .word⟩

/-- A concrete segmentation engine: on any input it yields word, separator,
word — enough to exercise the adapter loop. -/
def demoEng : String → List Segment := fun _ => [segAB, segSp, segCD]

/-- A second, independently constructed engine with the same behaviour. -/
def demoEng2 : String → List Segment := fun _ => [segAB, segSp, segCD]

/-- C1: the positions of the tokens emitted by the unfiltered adapter over
any input form the exact sequence 0, 1, …, N-1 for N emitted tokens: the
counter starts at 0 and increments by exactly one per emitted token, with no
gaps or repeats. -/
theorem C1_positions_exact_sequence (nfc : String → String)
    (eng : String → List Segment) (text : String) :
    ((CharabiaTokenStream.new eng text).collectTokens nfc).map Token.position =
      List.range ((CharabiaTokenStream.new eng text).collectTokens nfc).length := by
  rw [collectTokens_eq, emitAll_map_position, emitAll_length, List.range_eq_range']
  rfl

/-- C2: only word-classified segments are ever surfaced by `advance`;
non-word segments are discarded without being emitted and without
incrementing the position counter, so pre-discarding them changes nothing
and the stream emits exactly one token per word segment. -/
theorem C2_only_word_segments (nfc : String → String) (s : CharabiaTokenStream) :
    s.collectTokens nfc =
      CharabiaTokenStream.collectTokens nfc ⟨s.tokens.filter (·.is_word), s.token, s.position⟩ ∧
    (s.collectTokens nfc).length = (s.tokens.filter (·.is_word)).length := by
  constructor
  · rw [collectTokens_eq, collectTokens_eq]
    simp [List.filter_filter]
  · rw [collectTokens_eq, emitAll_length]

/-- C3: every emitted token's text is the NFC normalization of the
corresponding word segment's lemma. -/
theorem C3_text_is_nfc_of_lemma (nfc : String → String) (s : CharabiaTokenStream) :
    List.Forall₂ (fun t seg => t.text = nfc seg.lemma_)
      (s.collectTokens nfc) (s.tokens.filter (·.is_word)) := by
  rw [collectTokens_eq]
  exact (emitAll_forall₂ nfc s.token.position_length
    (s.tokens.filter (·.is_word)) s.position).imp (fun a b hab => hab.1)

/-- C4 (amended): `advance` does not assign `position_length` at all — it
preserves the current buffer's value across every call, so every emitted
token carries the buffer's `position_length` (1 for a fresh stream, but a
mutation through `token_mut` persists into subsequently emitted tokens
rather than being reset to 1). -/
theorem C4_position_length_preserved (nfc : String → String) (s : CharabiaTokenStream) :
    (s.advance nfc).2.token.position_length = s.token.position_length ∧
    ∀ t ∈ s.collectTokens nfc, t.position_length = s.token.position_length := by
  constructor
  · exact advanceAux_position_length nfc s.token s.position s.tokens
  · intro t ht
    rw [collectTokens_eq] at ht
    exact emitAll_position_length nfc s.token.position_length
      (s.tokens.filter (·.is_word)) s.position t ht

/-- C4 counterexample: a pipeline stage sets the buffer's `position_length`
to 5 through `token_mut` between two advances; the next emitting `advance`
call surfaces a token whose `position_length` is 5, not 1 — so `advance`
does not "set position_length to 1". -/
theorem C4_counterexample :
    (CharabiaTokenStream.advance id
      (CharabiaTokenStream.token_mut (fun t => { t with position_length := 5 })
        ((CharabiaTokenStream.new demoEng "ab cd").advance id).2)).1 = true ∧
    (CharabiaTokenStream.advance id
      (CharabiaTokenStream.token_mut (fun t => { t with position_length := 5 })
        ((CharabiaTokenStream.new demoEng "ab cd").advance id).2)).2.token.position_length
      = 5 := by
  decide

/-- C5: every emitted token carries its word segment's byte offsets verbatim
(`offset_from = byte_start`, `offset_to = byte_end`); consequently, whenever
the segmentation source yields valid segments, every emitted token has
`offset_from < offset_to` with both offsets inside the original input. -/
theorem C5_offsets_verbatim_and_valid (nfc : String → String)
    (eng : String → List Segment) (text : String) :
    List.Forall₂ (fun t seg => t.offset_from = seg.byte_start ∧ t.offset_to = seg.byte_end)
      ((CharabiaTokenStream.new eng text).collectTokens nfc)
      ((eng text).filter (·.is_word)) ∧
    ((∀ seg ∈ eng text, ValidSegment text seg) →
      ∀ t ∈ (CharabiaTokenStream.new eng text).collectTokens nfc,
        t.offset_from < t.offset_to ∧ t.offset_to ≤ text.utf8ByteSize) := by
  constructor
  · rw [collectTokens_eq]
    exact (emitAll_forall₂ nfc Token.default.position_length
      ((eng text).filter (·.is_word)) 0).imp (fun a b hab => ⟨hab.2.1, hab.2.2.1⟩)
  · intro hval t ht
    rw [collectTokens_eq] at ht
    obtain ⟨seg, hseg, hfrom, hto⟩ := emitAll_mem nfc Token.default.position_length
      ((eng text).filter (·.is_word)) 0 t ht
    have hmem : seg ∈ eng text := (List.mem_filter.mp hseg).1
    obtain ⟨h1, h2⟩ := hval seg hmem
    rw [hfrom, hto]
    exact ⟨h1, h2⟩

/-- C5 witness: a concrete engine whose segments are valid for the input
`"ab cd"`; the theorem yields the offset bounds for every emitted token. -/
theorem C5_witness :
    (∀ seg ∈ demoEng "ab cd", ValidSegment "ab cd" seg) ∧
    (∀ t ∈ (CharabiaTokenStream.new demoEng "ab cd").collectTokens id,
      t.offset_from < t.offset_to ∧ t.offset_to ≤ "ab cd".utf8ByteSize) :=
  ⟨by decide, (C5_offsets_verbatim_and_valid id demoEng "ab cd").2 (by decide)⟩

/-- C6: exhaustion is terminal — once `advance` returns false it has
consumed the whole iterator, and every subsequent call (after any number of
further advances) also returns false; there is no reset. -/
theorem C6_exhaustion_terminal (nfc : String → String) (s : CharabiaTokenStream)
    (h : (s.advance nfc).1 = false) :
    (s.advance nfc).2.tokens = [] ∧
    ∀ n, ((advanceN nfc n (s.advance nfc).2).advance nfc).1 = false := by
  have hs' : (s.advance nfc).2 = ⟨[], s.token, s.position⟩ := advance_false nfc s h
  have hnil : (s.advance nfc).2.tokens = [] := by rw [hs']
  refine ⟨hnil, ?_⟩
  have hstay : ∀ n, advanceN nfc n (s.advance nfc).2 = (s.advance nfc).2 := by
    intro n
    induction n with
    | zero => rfl
    | succ m ih =>
      show advanceN nfc m ((s.advance nfc).2.advance nfc).2 = (s.advance nfc).2
      rw [advance_nil nfc _ hnil]
      exact ih
  intro n
  rw [hstay n, advance_nil nfc _ hnil]

/-- C6 witness: a stream over a single separator segment is exhausted by its
first `advance`; the theorem gives that the next call also returns false. -/
theorem C6_witness :
    ((CharabiaTokenStream.advance id ⟨[segSp], Token.default, 0⟩).1 = false) ∧
    ((advanceN id 1
        (CharabiaTokenStream.advance id ⟨[segSp], Token.default, 0⟩).2).advance id).1
      = false :=
  ⟨by decide, (C6_exhaustion_terminal id ⟨[segSp], Token.default, 0⟩ (by decide)).2 1⟩

/-- C7: the stopword filter drops a token iff its text is an exact member of
the combined active set (language-provided list ++ caller-supplied list);
driving the wrapped composition equals `List.filter` of the unfiltered
stream's output, so the survivors keep their original relative order and
their offsets and position values are exposed unchanged. -/
theorem C7_stopword_filter_is_filter (langSet callerSet : List String)
    (nfc : String → String) (s : CharabiaTokenStream) :
    stopCollect (langSet ++ callerSet) nfc s =
      (s.collectTokens nfc).filter
        (fun t => !(langSet.contains t.text || callerSet.contains t.text)) := by
  unfold stopCollect CharabiaTokenStream.collectTokens
  rw [stopCollectFuel_eq]
  apply List.filter_congr
  intro t _
  simp

/-- C8: tokenization is deterministic — two independently constructed
streams over the same input yield identical token sequences whenever the
shared segmentation engine yields the same segment sequence for that
input. -/
theorem C8_deterministic (nfc : String → String)
    (engA engB : String → List Segment) (text : String)
    (h : engA text = engB text) :
    (CharabiaTokenStream.new engA text).collectTokens nfc =
      (CharabiaTokenStream.new engB text).collectTokens nfc := by
  unfold CharabiaTokenStream.collectTokens CharabiaTokenStream.new
  rw [h]

/-- C8 witness: two engines built independently but agreeing on the input
give the same collected token sequence. -/
theorem C8_witness :
    demoEng "ab cd" = demoEng2 "ab cd" ∧
    (CharabiaTokenStream.new demoEng "ab cd").collectTokens id =
      (CharabiaTokenStream.new demoEng2 "ab cd").collectTokens id :=
  ⟨by decide, C8_deterministic id demoEng demoEng2 "ab cd" (by decide)⟩

/-- C10: `token_stream` builds a fresh stream from the text alone: its
counter starts at 0, its buffer is reset to the default token and its
iterator is exactly the engine's segment sequence for this text (so nothing
carries over from previously created streams); and an exhausted `advance`
call leaves the current-token buffer unchanged. -/
theorem C10_fresh_stream (eng : String → List Segment) (text : String)
    (nfc : String → String) (s : CharabiaTokenStream) :
    (CharabiaTokenStream.new eng text).position = 0 ∧
    (CharabiaTokenStream.new eng text).token = Token.default ∧
    (CharabiaTokenStream.new eng text).tokens = eng text ∧
    ((s.advance nfc).1 = false → (s.advance nfc).2.token = s.token) := by
  refine ⟨rfl, rfl, rfl, ?_⟩
  intro h
  rw [advance_false nfc s h]

/-- C10 witness: fresh-stream fields at a concrete engine and text, and an
exhausted `advance` on a concrete drained stream leaving the buffer as it
was. -/
theorem C10_witness :
    (CharabiaTokenStream.advance id ⟨[], Token.default, 3⟩).1 = false ∧
    (CharabiaTokenStream.advance id ⟨[], Token.default, 3⟩).2.token = Token.default :=
  ⟨by decide,
    (C10_fresh_stream demoEng "ab cd" id ⟨[], Token.default, 3⟩).2.2.2 (by decide)⟩

end ParadeDB
